/-
Verification of the binaural-beat generator CLI against its design
specification.

The development shallowly embeds the Rust sources:
  * src/modules/frequency/carrier_frequency.rs  (CarrierFrequency, to_hz)
  * src/modules/frequency/beat_frequency.rs     (BeatFrequency, to_hz)
  * src/modules/duration/duration.rs            (Duration, to_minutes)
  * src/modules/preset.rs                       (Preset, BinauralPresetGroup,
                                                 From<Preset>)
  * src/modules/bb_generator.rs                 (generate_binaural_beats,
                                                 the audio callback closure,
                                                 wait_until_end)

Machine floats (f32/f64) are modelled by exact rationals: every literal in
the sources is a short decimal, and the properties proved here concern
signs, exact values and control flow, not rounding.  The callback's sine is
kept abstract as a function parameter `sinq`: the source computes
`(2.0 * PI * f * clock / sample_rate).sin()`, which is embedded as
`sinq (2 * pi * f * clock / sample_rate)` with `pi` the embedded PI
constant.  Buffer writes `frame[i] = v` are embedded with an explicit
bounds check (`setSample` returns `none` where the Rust slice index would
abort), so "the callback never aborts" is a provable statement.
-/
import Mathlib

namespace BBG

/-! ## Frequency and duration data model
    From src/modules/frequency/carrier_frequency.rs,
    src/modules/frequency/beat_frequency.rs and
    src/modules/duration/duration.rs. -/

/-- `CarrierFrequency` from carrier_frequency.rs (lines 7-37). -/
inductive CarrierFrequency where
  | Delta
  | Theta
  | Alpha
  | Beta
  | Gamma
  | SolfeggioRoot
  | SolfeggioSacral
  | SolfeggioSolarPlexus
  | SolfeggioHeart
  | SolfeggioThroat
  | SolfeggioThirdEye
  | SolfeggioCrown
  | TuningForkRoot
  | TuningForkSacral
  | TuningForkSolarPlexus
  | TuningForkHeart
  | TuningForkThroat
  | TuningForkThirdEye
  | TuningForkCrown
  | Custom (hz : ℚ)
  deriving DecidableEq

/-- `CarrierFrequency::to_hz` from carrier_frequency.rs (lines 39-69). -/
def CarrierFrequency.to_hz : CarrierFrequency → ℚ
  | .Delta => 100.0
  | .Theta => 200.0
  | .Alpha => 300.0
  | .Beta => 400.0
  | .Gamma => 500.0
  | .SolfeggioRoot => 396.0
  | .SolfeggioSacral => 417.0
  | .SolfeggioSolarPlexus => 528.0
  | .SolfeggioHeart => 639.0
  | .SolfeggioThroat => 741.0
  | .SolfeggioThirdEye => 852.0
  | .SolfeggioCrown => 963.0
  | .TuningForkRoot => 194.18
  | .TuningForkSacral => 210.42
  | .TuningForkSolarPlexus => 126.22
  | .TuningForkHeart => 136.10
  | .TuningForkThroat => 141.27
  | .TuningForkThirdEye => 221.23
  | .TuningForkCrown => 172.06
  | .Custom hz => hz

/-- `BeatFrequency` from beat_frequency.rs (lines 7-20). -/
inductive BeatFrequency where
  | Delta
  | Theta
  | Alpha
  | Beta
  | Gamma
  | Custom (hz : ℚ)
  deriving DecidableEq

/-- `BeatFrequency::to_hz` from beat_frequency.rs (lines 23-35). -/
def BeatFrequency.to_hz : BeatFrequency → ℚ
  | .Delta => 2.0
  | .Theta => 6.0
  | .Alpha => 10.0
  | .Beta => 20.0
  | .Gamma => 40.0
  | .Custom hz => hz

/-- `Duration` from duration.rs (lines 9-19). -/
inductive Duration where
  | FiveMinutes
  | TenMinutes
  | FifteenMinutes
  | TwentyMinutes
  | ThirtyMinutes
  | ThirtyFiveMinutes
  | FortyMinutes
  | FiftyMinutes
  | SixtyMinutes
  deriving DecidableEq

/-- `Duration::to_minutes` from duration.rs (lines 39-53); the Rust value is
a `u32`, embedded as `ℕ` (all values fit well inside the u32 range). -/
def Duration.to_minutes : Duration → ℕ
  | .FiveMinutes => 5
  | .TenMinutes => 10
  | .FifteenMinutes => 15
  | .TwentyMinutes => 20
  | .ThirtyMinutes => 30
  | .ThirtyFiveMinutes => 35
  | .FortyMinutes => 40
  | .FiftyMinutes => 50
  | .SixtyMinutes => 60

/-! ## Presets
    From src/modules/preset.rs. -/

/-- `Preset` from preset.rs (lines 21-195): the 32 selectable presets. -/
inductive Preset where
  | Focus
  | HighFocus
  | Relaxation
  | DeepRelaxation
  | Sleep
  | Chanting
  | Intuition
  | Astral
  | Healing
  | Alpha
  | Intelligence
  | Euphoria
  | CrownFocus
  | CrownRelaxation
  | CrownSleep
  | CrownChanting
  | CrownIntuition
  | CrownAstral
  | SolfeggioRoot
  | SolfeggioSacral
  | SolfeggioSolarPlexus
  | SolfeggioHeart
  | SolfeggioThroat
  | SolfeggioThirdEye
  | SolfeggioCrown
  | TuningForkRoot
  | TuningForkSacral
  | TuningForkSolarPlexus
  | TuningForkHeart
  | TuningForkThroat
  | TuningForkThirdEye
  | TuningForkCrown
  deriving DecidableEq

/-- `BinauralPresetGroup` from preset.rs (lines 12-17). -/
structure BinauralPresetGroup where
  preset : Preset
  carrier : CarrierFrequency
  beat : BeatFrequency
  duration : Duration
  deriving DecidableEq

/-- `impl From<Preset> for BinauralPresetGroup` from preset.rs
(lines 198-402). -/
def BinauralPresetGroup.fromPreset (preset : Preset) : BinauralPresetGroup :=
  match preset with
  | .Focus => ⟨preset, .Beta, .Beta, .ThirtyMinutes⟩
  | .HighFocus => ⟨preset, .Gamma, .Gamma, .ThirtyMinutes⟩
  | .Relaxation => ⟨preset, .Alpha, .Alpha, .FifteenMinutes⟩
  | .DeepRelaxation => ⟨preset, .Theta, .Theta, .FifteenMinutes⟩
  | .Sleep => ⟨preset, .Delta, .Delta, .SixtyMinutes⟩
  | .Chanting => ⟨preset, .Theta, .Theta, .ThirtyMinutes⟩
  | .Intuition => ⟨preset, .Theta, .Theta, .FifteenMinutes⟩
  | .Astral => ⟨preset, .Custom 140.0, .Custom 6.3, .SixtyMinutes⟩
  | .Healing => ⟨preset, .Delta, .Theta, .SixtyMinutes⟩
  | .Alpha => ⟨preset, .Alpha, .Alpha, .ThirtyMinutes⟩
  | .Intelligence => ⟨preset, .Gamma, .Gamma, .TenMinutes⟩
  | .Euphoria => ⟨preset, .Custom 210.42, .Custom 20.0, .TenMinutes⟩
  | .CrownFocus => ⟨preset, .TuningForkCrown, .Beta, .ThirtyMinutes⟩
  | .CrownRelaxation => ⟨preset, .TuningForkCrown, .Alpha, .FifteenMinutes⟩
  | .CrownSleep => ⟨preset, .TuningForkCrown, .Delta, .SixtyMinutes⟩
  | .CrownChanting => ⟨preset, .TuningForkCrown, .Theta, .ThirtyMinutes⟩
  | .CrownIntuition => ⟨preset, .TuningForkCrown, .Theta, .FifteenMinutes⟩
  | .CrownAstral => ⟨preset, .TuningForkCrown, .Delta, .SixtyMinutes⟩
  | .SolfeggioRoot => ⟨preset, .SolfeggioRoot, .Delta, .ThirtyMinutes⟩
  | .SolfeggioSacral => ⟨preset, .SolfeggioSacral, .Theta, .ThirtyMinutes⟩
  | .SolfeggioSolarPlexus =>
      ⟨preset, .SolfeggioSolarPlexus, .Alpha, .ThirtyMinutes⟩
  | .SolfeggioHeart => ⟨preset, .SolfeggioHeart, .Alpha, .FifteenMinutes⟩
  | .SolfeggioThroat => ⟨preset, .SolfeggioThroat, .Beta, .TenMinutes⟩
  | .SolfeggioThirdEye => ⟨preset, .SolfeggioThirdEye, .Beta, .TenMinutes⟩
  | .SolfeggioCrown => ⟨preset, .SolfeggioCrown, .Gamma, .TenMinutes⟩
  | .TuningForkRoot => ⟨preset, .TuningForkRoot, .Delta, .ThirtyMinutes⟩
  | .TuningForkSacral => ⟨preset, .TuningForkSacral, .Theta, .ThirtyMinutes⟩
  | .TuningForkSolarPlexus =>
      ⟨preset, .TuningForkSolarPlexus, .Alpha, .ThirtyMinutes⟩
  | .TuningForkHeart => ⟨preset, .TuningForkHeart, .Alpha, .FifteenMinutes⟩
  | .TuningForkThroat => ⟨preset, .TuningForkThroat, .Beta, .TenMinutes⟩
  | .TuningForkThirdEye => ⟨preset, .TuningForkThirdEye, .Beta, .TenMinutes⟩
  | .TuningForkCrown => ⟨preset, .TuningForkCrown, .Gamma, .TenMinutes⟩

/-! ## generate_binaural_beats: validation and the acquisition path
    From src/modules/bb_generator.rs (lines 43-148).  The audio host is
    abstracted by `AudioEnv` (whether a default output device exists, whether
    its default config / stream construction / playback succeed, and the
    device's config).  The returned effect trace records, in order, what the
    function touched: console output, then the device and stream resources. -/

/-- The ear frequency for the left ear, `let f_left = carrier_hz - (beat_hz
/ 2.0)` from bb_generator.rs line 54. -/
def f_left (carrier_hz beat_hz : ℚ) : ℚ := carrier_hz - beat_hz / 2

/-- The ear frequency for the right ear, `let f_right = carrier_hz +
(beat_hz / 2.0)` from bb_generator.rs line 55. -/
def f_right (carrier_hz beat_hz : ℚ) : ℚ := carrier_hz + beat_hz / 2

/-- The failure cases of `generate_binaural_beats`: the two validation
errors (bb_generator.rs lines 58-67) and the device/stream failures
(lines 80-142, each surfaced through `?`). -/
inductive BBError where
  | invalidFrequency
  | invalidDuration
  | noOutputDevice
  | defaultConfigFailed
  | buildStreamFailed
  | playFailed
  deriving DecidableEq

/-- One observable step of `generate_binaural_beats`: console output or the
acquisition of an audio resource. -/
inductive AudioEffect where
  | printed
  | acquiredDevice
  | queriedConfig
  | builtStream
  | playedStream
  deriving DecidableEq

/-- The audio host as `generate_binaural_beats` sees it: which acquisition
steps succeed, and the device configuration read at line 86-87. -/
structure AudioEnv where
  hasOutputDevice : Bool
  configOk : Bool
  sample_rate : ℚ
  channels : ℕ
  buildOk : Bool
  playOk : Bool
  deriving DecidableEq

/-- `generate_binaural_beats` from bb_generator.rs lines 43-148, up to the
stream being started (the callback itself is embedded separately below, and
the closing `wait_until_end` call further below).  Returns the function's
result together with the trace of effects it performed, in program order:
the validation at lines 54-67 runs before any printing and before any
device or stream resource is touched. -/
def generate_binaural_beats (env : AudioEnv) (g : BinauralPresetGroup) :
    Except BBError Unit × List AudioEffect :=
  let carrier_hz := g.carrier.to_hz
  let beat_hz := g.beat.to_hz
  let duration_minutes := g.duration.to_minutes
  if f_left carrier_hz beat_hz ≤ 0 ∨ f_right carrier_hz beat_hz ≤ 0 then
    (Except.error BBError.invalidFrequency, [])
  else if duration_minutes = 0 then
    (Except.error BBError.invalidDuration, [])
  else if env.hasOutputDevice = false then
    (Except.error BBError.noOutputDevice, [AudioEffect.printed])
  else if env.configOk = false then
    (Except.error BBError.defaultConfigFailed,
      [AudioEffect.printed, AudioEffect.acquiredDevice])
  else if env.buildOk = false then
    (Except.error BBError.buildStreamFailed,
      [AudioEffect.printed, AudioEffect.acquiredDevice,
       AudioEffect.queriedConfig])
  else if env.playOk = false then
    (Except.error BBError.playFailed,
      [AudioEffect.printed, AudioEffect.acquiredDevice,
       AudioEffect.queriedConfig, AudioEffect.builtStream])
  else
    (Except.ok (),
      [AudioEffect.printed, AudioEffect.acquiredDevice,
       AudioEffect.queriedConfig, AudioEffect.builtStream,
       AudioEffect.playedStream])

/-- `true` exactly on the two validation errors of bb_generator.rs lines
58-67 (`InvalidFrequency`, `InvalidDuration`). -/
def isValidationError : Except BBError Unit → Bool
  | .error .invalidFrequency => true
  | .error .invalidDuration => true
  | _ => false

/-! ## The audio callback
    From the closure at bb_generator.rs lines 98-137.  The interleaved
    `&mut [f32]` buffer is embedded as a list of frames (the chunks that
    `data.chunks_mut(channels_val)` yields), each frame a list of samples.
    A write `frame[i] = v` is embedded as `setSample`, which is `none`
    where the Rust index would abort the thread; the phase clocks are the
    two `sample_clock` values of lines 89-90. -/

/-- The pair of `f64` sample clocks guarded by the two mutexes at
bb_generator.rs lines 89-90, initialised to zero at stream start. -/
structure PhaseState where
  left : ℚ
  right : ℚ
  deriving DecidableEq

/-- The buffer write `frame[i] = v`: `none` where the index is out of the
frame's bounds (the Rust slice write would abort there). -/
def setSample (frame : List ℚ) (i : ℕ) (v : ℚ) : Option (List ℚ) :=
  if i < frame.length then some (frame.set i v) else none

/-- The silence branch for one frame, bb_generator.rs lines 102-109: with
two channels both samples are zeroed, otherwise only `frame[0]` is. -/
def silenceFrame (channels : ℕ) (frame : List ℚ) : Option (List ℚ) :=
  if channels = 2 then
    (setSample frame 0 0).bind fun f0 => setSample f0 1 0
  else
    setSample frame 0 0

/-- The silence branch over the whole buffer, the loop at bb_generator.rs
lines 102-109. -/
def silenceBuffer (channels : ℕ) : List (List ℚ) → Option (List (List ℚ))
  | [] => some []
  | frame :: rest =>
    (silenceFrame channels frame).bind fun f =>
      (silenceBuffer channels rest).map fun fs => f :: fs

/-- One iteration of the tone loop, bb_generator.rs lines 116-136: compute
the two sine samples from the clocks, advance each clock by one, and write
the channel-mapped samples into the frame.  `sinq` abstracts the `f64`
sine, `pi` the `std::f64::consts::PI` constant. -/
def toneFrame (sinq : ℚ → ℚ) (pi fl fr sample_rate : ℚ) (channels : ℕ)
    (st : PhaseState) (frame : List ℚ) : Option (List ℚ × PhaseState) :=
  let left_sample := sinq (2 * pi * fl * st.left / sample_rate)
  let clock_left := st.left + 1
  let right_sample := sinq (2 * pi * fr * st.right / sample_rate)
  let clock_right := st.right + 1
  let st' : PhaseState := ⟨clock_left, clock_right⟩
  if channels = 2 then
    (setSample frame 0 (left_sample * 0.5)).bind fun f0 =>
      (setSample f0 1 (right_sample * 0.5)).map fun f1 => (f1, st')
  else
    (setSample frame 0 ((left_sample + right_sample) * 0.25)).map
      fun f0 => (f0, st')

/-- The tone loop over the whole buffer, bb_generator.rs lines 116-136,
threading the clocks frame to frame. -/
def renderBuffer (sinq : ℚ → ℚ) (pi fl fr sample_rate : ℚ) (channels : ℕ) :
    PhaseState → List (List ℚ) → Option (List (List ℚ) × PhaseState)
  | st, [] => some ([], st)
  | st, frame :: rest =>
    (toneFrame sinq pi fl fr sample_rate channels st frame).bind fun p =>
      (renderBuffer sinq pi fl fr sample_rate channels p.2 rest).map
        fun q => (p.1 :: q.1, q.2)

/-- One invocation of the callback closure, bb_generator.rs lines 98-137:
the cancellation token is loaded once at entry (line 100); if set, the
buffer is silenced and the function returns without locking either clock,
otherwise the tone loop runs. -/
def audioCallback (sinq : ℚ → ℚ) (pi fl fr sample_rate : ℚ) (channels : ℕ)
    (cancel : Bool) (st : PhaseState) (data : List (List ℚ)) :
    Option (List (List ℚ) × PhaseState) :=
  if cancel then
    (silenceBuffer channels data).map fun out => (out, st)
  else
    renderBuffer sinq pi fl fr sample_rate channels st data

/-- A whole playback session as the audio host sees it: the callback is
invoked once per buffer-fill request, in order.  The cancellation token
only ever transitions false to true; `cancelAt` is the index of the first
invocation that observes it true, so invocation `k` loads the value
`cancelAt ≤ k`. -/
def runSession (sinq : ℚ → ℚ) (pi fl fr sample_rate : ℚ) (channels : ℕ)
    (cancelAt : ℕ) :
    ℕ → PhaseState → List (List (List ℚ)) →
      Option (List (List (List ℚ)) × PhaseState)
  | _, st, [] => some ([], st)
  | k, st, data :: rest =>
    (audioCallback sinq pi fl fr sample_rate channels
        (decide (cancelAt ≤ k)) st data).bind fun p =>
      (runSession sinq pi fl fr sample_rate channels cancelAt
          (k + 1) p.2 rest).map fun q => (p.1 :: q.1, q.2)

/-! ## wait_until_end
    From bb_generator.rs lines 19-32.  Time is idealised: the loop body is
    instantaneous and each `thread::sleep(500ms)` advances the clock by
    exactly 500 ms, so the elapsed time at the start of iteration `n` is
    `500·n` ms.  The cancellation token is again modelled by the instant
    `cancelMs` from which loads return true. -/

/-- The loop of `wait_until_end`, entered with elapsed time `t` ms:
`while start_time.elapsed() < total_duration { if cancel { break; }
sleep(500ms); }`.  Returns the elapsed time at which the loop exits. -/
def waitLoop (cancelMs totalMs : ℕ) (t : ℕ) : ℕ :=
  if h : t < totalMs then
    if cancelMs ≤ t then t
    else waitLoop cancelMs totalMs (t + 500)
  else t
  termination_by totalMs - t
  decreasing_by omega

/-- `wait_until_end` from bb_generator.rs lines 19-32: the total duration
is `(duration_minutes * 60) as u64` seconds, where the multiplication is
performed in `u32` (hence the reduction modulo `2^32`). -/
def wait_until_end (cancelMs : ℕ) (duration_minutes : ℕ) : ℕ :=
  waitLoop cancelMs ((duration_minutes * 60) % 2 ^ 32 * 1000) 0

/-- A concrete sine stand-in used by the mono channel-mapping scenario: it
produces the sample 0.6 at the left-ear phase argument and 0.2 at the
right-ear phase argument of the instance it is applied to. -/
def exampleSinq : ℚ → ℚ :=
  fun q => if q = 2 then 0.6 else if q = 4 then 0.2 else 0

/-! ## Numeric precision of the three generate_binaural_beats copies
    The repository holds three textual copies of the generator: the module
    engine (src/modules/bb_generator.rs), the library copy (src/lib.rs) and
    the legacy binary copy (src/main.rs).  For the precision claim, what
    matters is which float width each copy declares for the running sample
    clocks, for the per-sample phase/sine computation, and for the value
    written into the output buffer; these records transcribe exactly those
    type annotations. -/

/-- The two float widths of the Rust sources. -/
inductive FloatTy where
  | f32
  | f64
  deriving DecidableEq

/-- The float widths one copy of `generate_binaural_beats` uses for its
phase state and per-sample math. -/
structure PhasePrecision where
  sampleClockTy : FloatTy
  phaseMathTy : FloatTy
  writtenSampleTy : FloatTy
  deriving DecidableEq

/-- src/modules/bb_generator.rs: clocks `Mutex::new(0f64)` (lines 89-90),
phase math `2.0 * std::f64::consts::PI * f_left as f64 * ... / sample_rate_val`
with `sample_rate_val : f64` (lines 113-128), written samples `as f32`
(lines 121, 127). -/
def bbGeneratorPhasePrecision : PhasePrecision :=
  ⟨FloatTy.f64, FloatTy.f64, FloatTy.f32⟩

/-- src/lib.rs: clocks `Mutex::new(0f64)` (lines 560-561), phase math in
`f64` (lines 589-599), written samples `as f32`. -/
def libPhasePrecision : PhasePrecision :=
  ⟨FloatTy.f64, FloatTy.f64, FloatTy.f32⟩

/-- src/main.rs: clocks `Mutex::new(0f32)` (lines 209-210), phase math
`2.0 * std::f32::consts::PI * f_left * *current_sample_clock_left /
sample_rate_val` with `sample_rate_val : f32` (lines 222-226), written
samples `f32`. -/
def mainPhasePrecision : PhasePrecision :=
  ⟨FloatTy.f32, FloatTy.f32, FloatTy.f32⟩

/-- The three copies of `generate_binaural_beats` present in the
repository, in the order module engine, library, legacy binary. -/
def generateBinauralBeatsCopies : List PhasePrecision :=
  [bbGeneratorPhasePrecision, libPhasePrecision, mainPhasePrecision]

/-! ## Helper lemmas -/

/-- When both ear frequencies are positive and the duration is nonzero,
`generate_binaural_beats` never returns a validation error, whatever the
audio host does. -/
theorem validation_passes (env : AudioEnv) (g : BinauralPresetGroup)
    (hL : 0 < f_left g.carrier.to_hz g.beat.to_hz)
    (hR : 0 < f_right g.carrier.to_hz g.beat.to_hz)
    (hd : g.duration.to_minutes ≠ 0) :
    isValidationError (generate_binaural_beats env g).1 = false := by
  have hcond : ¬(f_left g.carrier.to_hz g.beat.to_hz ≤ 0 ∨
      f_right g.carrier.to_hz g.beat.to_hz ≤ 0) := by
    rintro (h | h) <;> linarith
  simp only [generate_binaural_beats]
  rw [if_neg hcond, if_neg hd]
  split_ifs <;> rfl

/-! ## Claim theorems -/

/-- C1: with `leftHz = carrierHz - beatHz/2` and `rightHz = carrierHz +
beatHz/2` computed from the resolved inputs, `generate_binaural_beats`
returns a validation error if and only if `leftHz ≤ 0` or `rightHz ≤ 0`
(the `InvalidFrequency` case, checked first) or `durationMinutes = 0`
(the `InvalidDuration` case); every validation failure happens with an
empty effect trace, so before any device or stream resource is touched;
and for positive ear frequencies and `durationMinutes ≥ 1` no validation
error is returned. -/
theorem generate_binaural_beats_validation_iff
    (env : AudioEnv) (g : BinauralPresetGroup) :
    ((generate_binaural_beats env g).1 = Except.error BBError.invalidFrequency ↔
      (f_left g.carrier.to_hz g.beat.to_hz ≤ 0 ∨
        f_right g.carrier.to_hz g.beat.to_hz ≤ 0)) ∧
    ((generate_binaural_beats env g).1 = Except.error BBError.invalidDuration ↔
      (0 < f_left g.carrier.to_hz g.beat.to_hz ∧
        0 < f_right g.carrier.to_hz g.beat.to_hz ∧
        g.duration.to_minutes = 0)) ∧
    ((f_left g.carrier.to_hz g.beat.to_hz ≤ 0 ∨
        f_right g.carrier.to_hz g.beat.to_hz ≤ 0 ∨
        g.duration.to_minutes = 0) →
      (generate_binaural_beats env g).2 = []) ∧
    ((0 < f_left g.carrier.to_hz g.beat.to_hz ∧
        0 < f_right g.carrier.to_hz g.beat.to_hz ∧
        1 ≤ g.duration.to_minutes) →
      isValidationError (generate_binaural_beats env g).1 = false) := by
  by_cases hf : f_left g.carrier.to_hz g.beat.to_hz ≤ 0 ∨
      f_right g.carrier.to_hz g.beat.to_hz ≤ 0
  · refine ⟨(by simp [generate_binaural_beats, hf]), ?_, ?_, ?_⟩
    · simp only [generate_binaural_beats, if_pos hf]
      simp only [false_iff, Except.error.injEq, reduceCtorEq]
      rintro ⟨hL, hR, hrest⟩
      rcases hf with h | h <;> linarith
    · intro _
      simp [generate_binaural_beats, hf]
    · rintro ⟨hL, hR, hrest⟩
      rcases hf with h | h <;> linarith
  · by_cases hd : g.duration.to_minutes = 0
    · push_neg at hf
      have hcond : ¬(f_left g.carrier.to_hz g.beat.to_hz ≤ 0 ∨
          f_right g.carrier.to_hz g.beat.to_hz ≤ 0) := by
        rintro (h | h) <;> linarith [hf.1, hf.2]
      refine ⟨?_, ?_, ?_, ?_⟩
      · simp only [generate_binaural_beats]
        rw [if_neg hcond, if_pos hd]
        simp only [false_iff, Except.error.injEq, reduceCtorEq]
        exact hcond
      · simp only [generate_binaural_beats]
        rw [if_neg hcond, if_pos hd]
        exact iff_of_true rfl ⟨hf.1, hf.2, hd⟩
      · intro _
        simp only [generate_binaural_beats]
        rw [if_neg hcond, if_pos hd]
      · rintro ⟨h1x, h2x, hdd⟩
        omega
    · push_neg at hf
      have hcond : ¬(f_left g.carrier.to_hz g.beat.to_hz ≤ 0 ∨
          f_right g.carrier.to_hz g.beat.to_hz ≤ 0) := by
        rintro (h | h) <;> linarith [hf.1, hf.2]
      refine ⟨?_, ?_, ?_, ?_⟩ <;>
        simp only [generate_binaural_beats] <;>
        rw [if_neg hcond, if_neg hd] <;>
        split_ifs <;>
        simp_all [isValidationError]

/-- C2 counterexample: the pair carrierHz = 1, beatHz = −10 (reachable
through the `Custom` variants) satisfies `carrierHz > beatHz/2`, yet the
right ear frequency is −4 ≤ 0 and `generate_binaural_beats` rejects the
input with `InvalidFrequency`: the claim as stated is false for negative
beat frequencies. -/
theorem ear_frequencies_claim_counterexample :
    (-10 : ℚ) / 2 < 1 ∧
    f_right 1 (-10) ≤ 0 ∧
    (generate_binaural_beats ⟨true, true, 48000, 2, true, true⟩
        ⟨Preset.Focus, CarrierFrequency.Custom 1, BeatFrequency.Custom (-10),
          Duration.FiveMinutes⟩).1 = Except.error BBError.invalidFrequency := by
  refine ⟨by norm_num, by norm_num [f_right], ?_⟩
  have hf : f_left (CarrierFrequency.Custom (1 : ℚ)).to_hz
        (BeatFrequency.Custom (-10 : ℚ)).to_hz ≤ 0 ∨
      f_right (CarrierFrequency.Custom (1 : ℚ)).to_hz
        (BeatFrequency.Custom (-10 : ℚ)).to_hz ≤ 0 := by
    right
    norm_num [f_right, CarrierFrequency.to_hz, BeatFrequency.to_hz]
  simp [generate_binaural_beats, hf]

/-- C2 (amended): for every pair (carrierHz, beatHz) with beatHz ≥ 0 and
carrierHz > beatHz/2, both ear frequencies `leftHz = carrierHz - beatHz/2`
and `rightHz = carrierHz + beatHz/2` are strictly positive, so the
frequency validation of `generate_binaural_beats` passes for every such
pair (the restriction to nonnegative beat frequencies is forced by the
counterexample carrierHz = 1, beatHz = −10). -/
theorem ear_frequencies_positive_of_nonneg_beat
    (pr : Preset) (c b : ℚ) (d : Duration) (env : AudioEnv)
    (hb : 0 ≤ b) (hcb : b / 2 < c) :
    0 < f_left c b ∧ 0 < f_right c b ∧
    (generate_binaural_beats env
        ⟨pr, CarrierFrequency.Custom c, BeatFrequency.Custom b, d⟩).1 ≠
      Except.error BBError.invalidFrequency := by
  have hL : 0 < f_left c b := by
    simp only [f_left]
    linarith
  have hR : 0 < f_right c b := by
    simp only [f_right]
    linarith
  refine ⟨hL, hR, ?_⟩
  have hcond : ¬(f_left (CarrierFrequency.Custom c).to_hz
        (BeatFrequency.Custom b).to_hz ≤ 0 ∨
      f_right (CarrierFrequency.Custom c).to_hz
        (BeatFrequency.Custom b).to_hz ≤ 0) := by
    simp only [CarrierFrequency.to_hz, BeatFrequency.to_hz]
    rintro (h | h) <;> linarith
  simp only [generate_binaural_beats]
  rw [if_neg hcond]
  split_ifs <;> simp

/-- C2 witness: the amended statement at the concrete pair
carrierHz = 300, beatHz = 10. -/
theorem ear_frequencies_positive_of_nonneg_beat_witness :
    0 < f_left 300 10 ∧ 0 < f_right 300 10 ∧
    (generate_binaural_beats ⟨true, true, 48000, 2, true, true⟩
        ⟨Preset.Focus, CarrierFrequency.Custom 300, BeatFrequency.Custom 10,
          Duration.FiveMinutes⟩).1 ≠
      Except.error BBError.invalidFrequency :=
  ear_frequencies_positive_of_nonneg_beat Preset.Focus 300 10
    Duration.FiveMinutes ⟨true, true, 48000, 2, true, true⟩
    (by norm_num) (by norm_num)

/-- C7 counterexample: the copy of `generate_binaural_beats` in
src/main.rs (lines 209-226) is one of the repository's copies and keeps
its running sample clocks in `f32`, not `f64`: the claim that single
precision is never used for the running index is false there. -/
theorem phase_precision_claim_counterexample :
    mainPhasePrecision ∈ generateBinauralBeatsCopies ∧
    mainPhasePrecision.sampleClockTy = FloatTy.f32 ∧
    mainPhasePrecision.sampleClockTy ≠ FloatTy.f64 := by
  decide

/-- C7 (amended): in the module engine (src/modules/bb_generator.rs) and
in the library copy (src/lib.rs) the running phase accumulators and the
per-sample phase/sine computation are in double precision, with single
precision used only for the final written sample; the legacy copy of
`generate_binaural_beats` in src/main.rs however keeps both running
indices in `f32` and performs the whole phase computation in `f32`. -/
theorem phase_precision_by_copy :
    bbGeneratorPhasePrecision.sampleClockTy = FloatTy.f64 ∧
    bbGeneratorPhasePrecision.phaseMathTy = FloatTy.f64 ∧
    bbGeneratorPhasePrecision.writtenSampleTy = FloatTy.f32 ∧
    libPhasePrecision = bbGeneratorPhasePrecision ∧
    mainPhasePrecision.sampleClockTy = FloatTy.f32 ∧
    mainPhasePrecision.phaseMathTy = FloatTy.f32 := by
  decide

/-- C9: for every one of the 32 presets, the group produced by
`From<Preset>` has both ear frequencies strictly positive and a nonzero
duration, so neither validation-error branch of `generate_binaural_beats`
is reachable from a preset-derived input. -/
theorem preset_validation_unreachable (p : Preset) (env : AudioEnv) :
    0 < f_left (BinauralPresetGroup.fromPreset p).carrier.to_hz
        (BinauralPresetGroup.fromPreset p).beat.to_hz ∧
    0 < f_right (BinauralPresetGroup.fromPreset p).carrier.to_hz
        (BinauralPresetGroup.fromPreset p).beat.to_hz ∧
    0 < (BinauralPresetGroup.fromPreset p).duration.to_minutes ∧
    isValidationError (generate_binaural_beats env
        (BinauralPresetGroup.fromPreset p)).1 = false := by
  have h : 0 < f_left (BinauralPresetGroup.fromPreset p).carrier.to_hz
        (BinauralPresetGroup.fromPreset p).beat.to_hz ∧
      0 < f_right (BinauralPresetGroup.fromPreset p).carrier.to_hz
        (BinauralPresetGroup.fromPreset p).beat.to_hz ∧
      0 < (BinauralPresetGroup.fromPreset p).duration.to_minutes := by
    cases p <;>
      norm_num [BinauralPresetGroup.fromPreset, CarrierFrequency.to_hz,
        BeatFrequency.to_hz, Duration.to_minutes, f_left, f_right]
  exact ⟨h.1, h.2.1, h.2.2,
    validation_passes env _ h.1 h.2.1 (Nat.pos_iff_ne_zero.mp h.2.2)⟩

/-! ## Callback lemmas -/

/-- The tone loop body on a two-channel frame: both samples are computed,
both clocks advance by one, and the frame receives the half-amplitude
samples. -/
theorem toneFrame_two (sinq : ℚ → ℚ) (pi fl fr sample_rate : ℚ)
    (st : PhaseState) (x y : ℚ) :
    toneFrame sinq pi fl fr sample_rate 2 st [x, y] =
      some ([sinq (2 * pi * fl * st.left / sample_rate) * 0.5,
             sinq (2 * pi * fr * st.right / sample_rate) * 0.5],
            ⟨st.left + 1, st.right + 1⟩) := rfl

/-- The tone loop body on a mono frame: the single channel receives the
quarter-amplitude sum and both clocks still advance by one. -/
theorem toneFrame_one (sinq : ℚ → ℚ) (pi fl fr sample_rate : ℚ)
    (st : PhaseState) (x : ℚ) :
    toneFrame sinq pi fl fr sample_rate 1 st [x] =
      some ([(sinq (2 * pi * fl * st.left / sample_rate) +
              sinq (2 * pi * fr * st.right / sample_rate)) * 0.25],
            ⟨st.left + 1, st.right + 1⟩) := rfl

/-- Whenever the tone loop body succeeds, the clocks it returns are the
input clocks advanced by exactly one. -/
theorem toneFrame_state (sinq : ℚ → ℚ) (pi fl fr sample_rate : ℚ)
    (channels : ℕ) (st : PhaseState) (frame f : List ℚ) (st₁ : PhaseState)
    (h : toneFrame sinq pi fl fr sample_rate channels st frame =
      some (f, st₁)) :
    st₁ = ⟨st.left + 1, st.right + 1⟩ := by
  unfold toneFrame at h
  split_ifs at h <;>
    simp only [Option.bind_eq_some, Option.map_eq_some'] at h
  · obtain ⟨f0, h0, f1, h1, h2⟩ := h
    injection h2 with h2a h2b
    exact h2b.symm
  · obtain ⟨f0, h0, h1⟩ := h
    injection h1 with h1a h1b
    exact h1b.symm

/-- On a mono or stereo device, a full frame never makes the tone loop
body abort. -/
theorem toneFrame_isSome (sinq : ℚ → ℚ) (pi fl fr sample_rate : ℚ)
    (channels : ℕ) (st : PhaseState) (frame : List ℚ)
    (hch : channels = 1 ∨ channels = 2) (hfr : frame.length = channels) :
    ∃ f, toneFrame sinq pi fl fr sample_rate channels st frame =
      some (f, ⟨st.left + 1, st.right + 1⟩) := by
  rcases hch with h | h <;> subst h
  · obtain ⟨x, rfl⟩ := List.length_eq_one.mp hfr
    exact ⟨_, toneFrame_one sinq pi fl fr sample_rate st x⟩
  · obtain ⟨x, y, rfl⟩ := List.length_eq_two.mp hfr
    exact ⟨_, toneFrame_two sinq pi fl fr sample_rate st x y⟩

/-- The silence branch zeroes a full mono or stereo frame completely. -/
theorem silenceFrame_spec (channels : ℕ) (frame : List ℚ)
    (hch : channels = 1 ∨ channels = 2) (hfr : frame.length = channels) :
    silenceFrame channels frame = some (List.replicate channels 0) := by
  rcases hch with h | h <;> subst h
  · obtain ⟨x, rfl⟩ := List.length_eq_one.mp hfr
    rfl
  · obtain ⟨x, y, rfl⟩ := List.length_eq_two.mp hfr
    rfl

/-- The silence branch zeroes every frame of a full mono or stereo
buffer. -/
theorem silenceBuffer_spec (channels : ℕ) (data : List (List ℚ))
    (hch : channels = 1 ∨ channels = 2)
    (hfr : ∀ fr ∈ data, fr.length = channels) :
    silenceBuffer channels data =
      some (data.map fun _ => List.replicate channels 0) := by
  induction data with
  | nil => rfl
  | cons frame rest ih =>
    have h1 := silenceFrame_spec channels frame hch (hfr frame (by simp))
    have h2 := ih (fun fr hf => hfr fr (by simp [hf]))
    simp [silenceBuffer, h1, h2]

/-- On a mono or stereo device, the tone loop renders a full buffer without
aborting, produces one output frame per input frame and advances both
clocks by the frame count. -/
theorem renderBuffer_some (sinq : ℚ → ℚ) (pi fl fr sample_rate : ℚ)
    (channels : ℕ) (hch : channels = 1 ∨ channels = 2) :
    ∀ (frames : List (List ℚ)) (st : PhaseState),
      (∀ f ∈ frames, f.length = channels) →
      ∃ out st', renderBuffer sinq pi fl fr sample_rate channels st frames =
          some (out, st') ∧
        out.length = frames.length ∧
        st' = ⟨st.left + frames.length, st.right + frames.length⟩ := by
  intro frames
  induction frames with
  | nil =>
    intro st _
    exact ⟨[], st, rfl, rfl, by simp⟩
  | cons frame rest ih =>
    intro st hfr
    obtain ⟨f, hf⟩ := toneFrame_isSome sinq pi fl fr sample_rate channels st
      frame hch (hfr frame (by simp))
    obtain ⟨out, st', hrun, hlen, hst⟩ :=
      ih ⟨st.left + 1, st.right + 1⟩ (fun q hq => hfr q (by simp [hq]))
    refine ⟨f :: out, st', ?_, by simp [hlen], ?_⟩
    · simp [renderBuffer, hf, hrun]
    · rw [hst]
      simp only [List.length_cons, PhaseState.mk.injEq]
      constructor <;> push_cast <;> ring

/-- Whenever the tone loop renders a buffer, the returned clocks are the
input clocks advanced by exactly the number of frames in the buffer. -/
theorem renderBuffer_state (sinq : ℚ → ℚ) (pi fl fr sample_rate : ℚ)
    (channels : ℕ) :
    ∀ (frames : List (List ℚ)) (st : PhaseState) (out : List (List ℚ))
      (st' : PhaseState),
      renderBuffer sinq pi fl fr sample_rate channels st frames =
        some (out, st') →
      st' = ⟨st.left + frames.length, st.right + frames.length⟩ := by
  intro frames
  induction frames with
  | nil =>
    intro st out st' h
    simp only [renderBuffer] at h
    injection h with h1
    injection h1 with h1a h1b
    simp [h1b.symm]
  | cons frame rest ih =>
    intro st out st' h
    simp only [renderBuffer, Option.bind_eq_some, Option.map_eq_some'] at h
    obtain ⟨⟨f, st₁⟩, h1, ⟨outr, str⟩, h2, h3⟩ := h
    have hst₁ := toneFrame_state sinq pi fl fr sample_rate channels st frame
      f st₁ h1
    subst hst₁
    injection h3 with h3a h3b
    simp only at h2 h3b
    subst h3b
    have hre := ih ⟨st.left + 1, st.right + 1⟩ outr str h2
    rw [hre]
    simp only [List.length_cons, PhaseState.mk.injEq]
    constructor <;> push_cast <;> ring

/-- On a stereo device, the frame at output position `j` of one rendered
buffer carries the samples of accumulated indices `st.left + j` and
`st.right + j`, scaled by one half. -/
theorem renderBuffer_two_content (sinq : ℚ → ℚ)
    (pi fl fr sample_rate : ℚ) :
    ∀ (frames : List (List ℚ)) (st : PhaseState) (out : List (List ℚ))
      (st' : PhaseState),
      (∀ f ∈ frames, f.length = 2) →
      renderBuffer sinq pi fl fr sample_rate 2 st frames = some (out, st') →
      ∀ (j : ℕ) (frj : List ℚ), out.get? j = some frj →
        frj = [sinq (2 * pi * fl * (st.left + j) / sample_rate) * 0.5,
               sinq (2 * pi * fr * (st.right + j) / sample_rate) * 0.5] := by
  intro frames
  induction frames with
  | nil =>
    intro st out st' _ h j frj hj
    simp only [renderBuffer] at h
    injection h with h1
    injection h1 with h1a h1b
    rw [← h1a] at hj
    simp at hj
  | cons frame rest ih =>
    intro st out st' hfr h j frj hj
    obtain ⟨x, y, rfl⟩ := List.length_eq_two.mp (hfr frame (by simp))
    rw [renderBuffer, toneFrame_two] at h
    simp only [Option.some_bind, Option.map_eq_some'] at h
    obtain ⟨⟨outr, str⟩, h2, h3⟩ := h
    injection h3 with h3a h3b
    simp only at h2 h3a h3b
    rw [← h3a] at hj
    cases j with
    | zero =>
      simp only [List.get?] at hj
      injection hj with hj1
      rw [← hj1]
      norm_num
    | succ n =>
      simp only [List.get?] at hj
      have := ih ⟨st.left + 1, st.right + 1⟩ outr str
        (fun q hq => hfr q (by simp [hq])) h2 n frj hj
      rw [this]
      have harg : ∀ a : ℚ, a + 1 + (n : ℚ) = a + ((n + 1 : ℕ) : ℚ) := by
        intro a
        push_cast
        ring
      rw [harg st.left, harg st.right]

/-- One callback invocation either leaves the clocks untouched (silence
branch) or advances both by the buffer's frame count (tone branch). -/
theorem audioCallback_state (sinq : ℚ → ℚ) (pi fl fr sample_rate : ℚ)
    (channels : ℕ) (c : Bool) (st : PhaseState) (data : List (List ℚ))
    (out : List (List ℚ)) (st₁ : PhaseState)
    (h : audioCallback sinq pi fl fr sample_rate channels c st data =
      some (out, st₁)) :
    st₁ = st ∨ st₁ = ⟨st.left + data.length, st.right + data.length⟩ := by
  cases c
  · right
    exact renderBuffer_state sinq pi fl fr sample_rate channels data st out
      st₁ h
  · left
    simp only [audioCallback, if_true, Option.map_eq_some'] at h
    obtain ⟨a, h1, h2⟩ := h
    injection h2 with h2a h2b
    exact h2b.symm

/-- A session started with equal clocks keeps them equal after every
callback invocation. -/
theorem runSession_balanced (sinq : ℚ → ℚ) (pi fl fr sample_rate : ℚ)
    (channels : ℕ) (cancelAt : ℕ) :
    ∀ (bufs : List (List (List ℚ))) (k : ℕ) (st : PhaseState)
      (outs : List (List (List ℚ))) (st' : PhaseState),
      st.left = st.right →
      runSession sinq pi fl fr sample_rate channels cancelAt k st bufs =
        some (outs, st') →
      st'.left = st'.right := by
  intro bufs
  induction bufs with
  | nil =>
    intro k st outs st' hbal h
    simp only [runSession] at h
    injection h with h1
    injection h1 with h1a h1b
    rw [← h1b]
    exact hbal
  | cons buf rest ih =>
    intro k st outs st' hbal h
    simp only [runSession, Option.bind_eq_some, Option.map_eq_some'] at h
    obtain ⟨⟨out0, st₁⟩, h1, ⟨outr, str⟩, h2, h3⟩ := h
    simp only at h2
    have hbal₁ : st₁.left = st₁.right := by
      rcases audioCallback_state sinq pi fl fr sample_rate channels _ st buf
        out0 st₁ h1 with hs | hs <;> rw [hs] <;> simp [hbal]
    injection h3 with h3a h3b
    simp only at h3b
    rw [← h3b]
    exact ih (k + 1) st₁ outr str hbal₁ h2

/-! ## Wait-loop lemmas -/

/-- The wait loop only exits because the elapsed time reached the total
duration or because a cancellation poll returned true. -/
theorem waitLoop_exit (cancelMs totalMs t : ℕ) :
    totalMs ≤ waitLoop cancelMs totalMs t ∨
      cancelMs ≤ waitLoop cancelMs totalMs t := by
  rw [waitLoop]
  split_ifs with h1 h2
  · right
    exact h2
  · exact waitLoop_exit cancelMs totalMs (t + 500)
  · left
    omega
  termination_by totalMs - t
  decreasing_by omega

/-- The wait loop exits no later than any poll instant at which one of its
two exit conditions already holds. -/
theorem waitLoop_le (cancelMs totalMs t u : ℕ) (htu : t ≤ u)
    (hcond : totalMs ≤ u ∨ cancelMs ≤ u) (hdvd : 500 ∣ (u - t)) :
    waitLoop cancelMs totalMs t ≤ u := by
  rw [waitLoop]
  split_ifs with h1 h2
  · exact htu
  · have hstep : t + 500 ≤ u := by omega
    exact waitLoop_le cancelMs totalMs (t + 500) u hstep hcond (by omega)
  · exact htu
  termination_by totalMs - t
  decreasing_by omega

/-! ## Remaining claim theorems -/

/-- C3: over any buffer rendered with the cancellation flag false, with the
clocks threaded from state `st`, the output frame at position `j` carries
the pre-scaling samples `sinq(2·pi·leftHz·(st.left+j)/sampleRate)` and
`sinq(2·pi·rightHz·(st.right+j)/sampleRate)` (scaled by one half into the
buffer), each clock advancing by exactly one per frame; for
carrierHz = 300 (Alpha) and beatHz = 10 (Alpha) the ear frequencies are
leftHz = 295 and rightHz = 305; and from clocks starting at zero the first
rendered frame is exactly `[0, 0]` in the output buffer, because
sin 0 = 0. -/
theorem toneRender_sample_formula (sinq : ℚ → ℚ)
    (pi fl fr sample_rate : ℚ) (st st' : PhaseState)
    (frames out : List (List ℚ))
    (hfr : ∀ f ∈ frames, f.length = 2)
    (hrun : renderBuffer sinq pi fl fr sample_rate 2 st frames =
      some (out, st')) :
    (∀ (j : ℕ) (frj : List ℚ), out.get? j = some frj →
      frj = [sinq (2 * pi * fl * (st.left + j) / sample_rate) * 0.5,
             sinq (2 * pi * fr * (st.right + j) / sample_rate) * 0.5]) ∧
    st' = ⟨st.left + frames.length, st.right + frames.length⟩ ∧
    f_left CarrierFrequency.Alpha.to_hz BeatFrequency.Alpha.to_hz = 295 ∧
    f_right CarrierFrequency.Alpha.to_hz BeatFrequency.Alpha.to_hz = 305 ∧
    (st = ⟨0, 0⟩ → sinq 0 = 0 →
      ∀ frj : List ℚ, out.get? 0 = some frj → frj = [0, 0]) := by
  refine ⟨renderBuffer_two_content sinq pi fl fr sample_rate frames st out
      st' hfr hrun,
    renderBuffer_state sinq pi fl fr sample_rate 2 frames st out st' hrun,
    (by norm_num [f_left, CarrierFrequency.to_hz, BeatFrequency.to_hz]),
    (by norm_num [f_right, CarrierFrequency.to_hz, BeatFrequency.to_hz]),
    ?_⟩
  rintro rfl hsin frj h0
  have hc := renderBuffer_two_content sinq pi fl fr sample_rate frames
    ⟨0, 0⟩ out st' hfr hrun 0 frj h0
  rw [hc]
  norm_num [hsin]

/-- C3 witness: the sample formula instantiated at one concrete stereo
buffer; the ear frequencies of the Alpha preset pair are 295 and 305. -/
theorem toneRender_sample_formula_witness :
    renderBuffer (fun _ => 0) 1 295 305 48000 2 ⟨0, 0⟩ [[1, 2]] =
      some ([[0, 0]], ⟨1, 1⟩) ∧
    f_left CarrierFrequency.Alpha.to_hz BeatFrequency.Alpha.to_hz = 295 :=
  have hrun : renderBuffer (fun _ => 0) 1 295 305 48000 2 ⟨0, 0⟩ [[1, 2]] =
      some ([[0, 0]], ⟨1, 1⟩) := by
    norm_num [renderBuffer, toneFrame, setSample]
  ⟨hrun, (toneRender_sample_formula (fun _ => 0) 1 295 305 48000 ⟨0, 0⟩
      ⟨1, 1⟩ [[1, 2]] [[0, 0]] (by norm_num) hrun).2.2.1⟩

/-- C4: on a mono or stereo device whose buffers hold full frames, a
session in which the cancellation flag becomes true at invocation
`cancelAt` (and, the flag being write-once, stays true) never aborts, and
every buffer filled by an invocation that observes the flag true consists
exclusively of zero samples, however many buffer-fill requests follow:
tone generation never resumes. -/
theorem cancel_silence_forever (sinq : ℚ → ℚ) (pi fl fr sample_rate : ℚ)
    (channels : ℕ) (cancelAt : ℕ) (hch : channels = 1 ∨ channels = 2) :
    ∀ (bufs : List (List (List ℚ))) (k : ℕ) (st : PhaseState),
      (∀ buf ∈ bufs, ∀ f ∈ buf, f.length = channels) →
      ∃ outs st',
        runSession sinq pi fl fr sample_rate channels cancelAt k st bufs =
          some (outs, st') ∧
        outs.length = bufs.length ∧
        ∀ (i : ℕ) (out : List (List ℚ)), outs.get? i = some out →
          cancelAt ≤ k + i → ∀ f ∈ out, ∀ x ∈ f, x = 0 := by
  intro bufs
  induction bufs with
  | nil =>
    intro k st _
    exact ⟨[], st, rfl, rfl, by simp⟩
  | cons buf rest ih =>
    intro k st hlen
    by_cases hc : cancelAt ≤ k
    · have hs := silenceBuffer_spec channels buf hch (hlen buf (by simp))
      have hcall : audioCallback sinq pi fl fr sample_rate channels
          (decide (cancelAt ≤ k)) st buf =
          some (buf.map fun _ => List.replicate channels 0, st) := by
        rw [decide_eq_true hc]
        simp [audioCallback, hs]
      obtain ⟨outs, st', hrun, hlenr, hzero⟩ :=
        ih (k + 1) st (fun b hb => hlen b (by simp [hb]))
      refine ⟨(buf.map fun _ => List.replicate channels 0) :: outs, st', ?_,
        (by simp [hlenr]), ?_⟩
      · simp only [runSession, hcall, Option.some_bind, hrun,
          Option.map_some']
      · intro i out hi hci f hf x hx
        cases i with
        | zero =>
          simp only [List.get?] at hi
          injection hi with hi1
          rw [← hi1] at hf
          simp only [List.mem_map] at hf
          obtain ⟨b, hb, hbf⟩ := hf
          rw [← hbf] at hx
          exact List.eq_of_mem_replicate hx
        | succ n =>
          exact hzero n out (by simpa using hi) (by omega) f hf x hx
    · obtain ⟨out0, st₁, hcall0, hlen0, hst₁⟩ :=
        renderBuffer_some sinq pi fl fr sample_rate channels hch buf st
          (hlen buf (by simp))
      have hcall : audioCallback sinq pi fl fr sample_rate channels
          (decide (cancelAt ≤ k)) st buf = some (out0, st₁) := by
        rw [decide_eq_false hc]
        simpa [audioCallback] using hcall0
      obtain ⟨outs, st', hrun, hlenr, hzero⟩ :=
        ih (k + 1) st₁ (fun b hb => hlen b (by simp [hb]))
      refine ⟨out0 :: outs, st', ?_, (by simp [hlenr]), ?_⟩
      · simp only [runSession, hcall, Option.some_bind, hrun,
          Option.map_some']
      · intro i out hi hci f hf x hx
        cases i with
        | zero =>
          exact absurd (by omega : cancelAt ≤ k) hc
        | succ n =>
          exact hzero n out (by simpa using hi) (by omega) f hf x hx

/-- C4 witness: a mono session of two buffer-fill requests, both after the
cancellation instant, runs to completion and fills only zero samples. -/
theorem cancel_silence_forever_witness :
    ∃ outs st',
      runSession (fun _ => 0) 1 295 305 48000 1 0 0 ⟨3, 4⟩ [[[5]], [[6]]] =
        some (outs, st') ∧
      outs.length = [[[5]], [[6]]].length ∧
      ∀ (i : ℕ) (out : List (List ℚ)), outs.get? i = some out →
        0 ≤ 0 + i → ∀ f ∈ out, ∀ x ∈ f, x = 0 :=
  cancel_silence_forever (fun _ => 0) 1 295 305 48000 1 0 (Or.inl rfl)
    [[[5]], [[6]]] 0 ⟨3, 4⟩ (by norm_num)

/-- C5: in every tone-rendering callback invocation, a two-channel frame
receives `leftSample * 0.5` on channel 0 and `rightSample * 0.5` on
channel 1, and a one-channel frame receives
`(leftSample + rightSample) * 0.25`; in particular a mono frame whose
samples evaluate to 0.6 and 0.2 receives the output sample 0.2. -/
theorem channel_mapping (sinq : ℚ → ℚ) (pi fl fr sample_rate : ℚ)
    (st : PhaseState) (x y : ℚ) :
    toneFrame sinq pi fl fr sample_rate 2 st [x, y] =
      some ([sinq (2 * pi * fl * st.left / sample_rate) * 0.5,
             sinq (2 * pi * fr * st.right / sample_rate) * 0.5],
            ⟨st.left + 1, st.right + 1⟩) ∧
    toneFrame sinq pi fl fr sample_rate 1 st [x] =
      some ([(sinq (2 * pi * fl * st.left / sample_rate) +
              sinq (2 * pi * fr * st.right / sample_rate)) * 0.25],
            ⟨st.left + 1, st.right + 1⟩) ∧
    exampleSinq 2 = 0.6 ∧ exampleSinq 4 = 0.2 ∧
    toneFrame exampleSinq 1 1 2 1 1 ⟨1, 1⟩ [7] = some ([0.2], ⟨2, 2⟩) := by
  refine ⟨toneFrame_two sinq pi fl fr sample_rate st x y,
    toneFrame_one sinq pi fl fr sample_rate st x,
    (by norm_num [exampleSinq]), (by norm_num [exampleSinq]), ?_⟩
  norm_num [toneFrame, setSample, exampleSinq]

/-- C6: a callback invocation that observes the cancellation flag true
produces exactly the silenced buffer and returns with the phase state it
was given: its output does not depend on the clocks (they are not read)
and the clocks it returns are unchanged (they are not modified). -/
theorem cancel_observed_keeps_phase (sinq : ℚ → ℚ)
    (pi fl fr sample_rate : ℚ) (channels : ℕ) (st st₂ : PhaseState)
    (data : List (List ℚ)) :
    audioCallback sinq pi fl fr sample_rate channels true st data =
      (silenceBuffer channels data).map (fun out => (out, st)) ∧
    (audioCallback sinq pi fl fr sample_rate channels true st data).map
        Prod.fst =
      (audioCallback sinq pi fl fr sample_rate channels true st₂ data).map
        Prod.fst ∧
    (∀ out st',
      audioCallback sinq pi fl fr sample_rate channels true st data =
        some (out, st') → st' = st) := by
  refine ⟨rfl, ?_, ?_⟩
  · simp only [audioCallback, if_true, Option.map_map]
    rcases silenceBuffer channels data with _ | o <;> rfl
  · intro out st' h
    simp only [audioCallback, if_true, Option.map_eq_some'] at h
    obtain ⟨a, h1, h2⟩ := h
    injection h2 with h2a h2b
    exact h2b.symm

/-- C8: the wait loop exits only because the elapsed time reached
`durationMinutes·60` seconds or because a cancellation poll returned true,
whichever comes first; polling every 500 ms, it exits within 500 ms of the
cancellation instant and within 500 ms of the configured duration
(stated for durations whose second count fits in `u32`, which covers every
duration the preset system produces). -/
theorem wait_until_end_bounds (duration_minutes cancelMs : ℕ)
    (hov : duration_minutes * 60 < 2 ^ 32) :
    (duration_minutes * 60 * 1000 ≤
        wait_until_end cancelMs duration_minutes ∨
      cancelMs ≤ wait_until_end cancelMs duration_minutes) ∧
    wait_until_end cancelMs duration_minutes < cancelMs + 500 ∧
    wait_until_end cancelMs duration_minutes <
      duration_minutes * 60 * 1000 + 500 := by
  have hT : duration_minutes * 60 % 2 ^ 32 * 1000 =
      duration_minutes * 60 * 1000 := by
    rw [Nat.mod_eq_of_lt hov]
  unfold wait_until_end
  rw [hT]
  refine ⟨waitLoop_exit cancelMs _ 0, ?_, ?_⟩
  · have h1 := waitLoop_le cancelMs (duration_minutes * 60 * 1000) 0
      (500 * ((cancelMs + 499) / 500)) (by omega) (Or.inr (by omega))
      (by omega)
    omega
  · have h1 := waitLoop_le cancelMs (duration_minutes * 60 * 1000) 0
      (500 * ((duration_minutes * 60 * 1000 + 499) / 500)) (by omega)
      (Or.inl (by omega)) (by omega)
    omega

/-- C8 witness: a 30-minute session cancelled at the 5-second mark is
released within 500 ms of the cancellation, far before the 30 minutes. -/
theorem wait_until_end_bounds_witness :
    (30 * 60 * 1000 ≤ wait_until_end 5000 30 ∨
      5000 ≤ wait_until_end 5000 30) ∧
    wait_until_end 5000 30 < 5000 + 500 ∧
    wait_until_end 5000 30 < 30 * 60 * 1000 + 500 :=
  wait_until_end_bounds 30 5000 (by norm_num)

/-- C10: the two phase clocks advance in lockstep: a tone-rendering
invocation advances each by exactly the number of frames in its buffer,
the silence branch advances neither, and hence a session started with both
clocks at zero satisfies `leftSampleIndex = rightSampleIndex` after every
callback invocation. -/
theorem phase_lockstep_invariant :
    (∀ (sinq : ℚ → ℚ) (pi fl fr sample_rate : ℚ) (channels : ℕ)
      (frames : List (List ℚ)) (st : PhaseState) (out : List (List ℚ))
      (st' : PhaseState),
      renderBuffer sinq pi fl fr sample_rate channels st frames =
        some (out, st') →
      st'.left = st.left + frames.length ∧
        st'.right = st.right + frames.length) ∧
    (∀ (sinq : ℚ → ℚ) (pi fl fr sample_rate : ℚ) (channels : ℕ)
      (st : PhaseState) (data out : List (List ℚ)) (st' : PhaseState),
      audioCallback sinq pi fl fr sample_rate channels true st data =
        some (out, st') →
      st' = st) ∧
    (∀ (sinq : ℚ → ℚ) (pi fl fr sample_rate : ℚ) (channels : ℕ)
      (cancelAt k : ℕ) (bufs outs : List (List (List ℚ)))
      (st' : PhaseState),
      runSession sinq pi fl fr sample_rate channels cancelAt k ⟨0, 0⟩ bufs =
        some (outs, st') →
      st'.left = st'.right) := by
  refine ⟨?_, ?_, ?_⟩
  · intro sinq pi fl fr sample_rate channels frames st out st' h
    have hs := renderBuffer_state sinq pi fl fr sample_rate channels frames
      st out st' h
    rw [hs]
    exact ⟨rfl, rfl⟩
  · intro sinq pi fl fr sample_rate channels st data out st' h
    simp only [audioCallback, if_true, Option.map_eq_some'] at h
    obtain ⟨a, h1, h2⟩ := h
    injection h2 with h2a h2b
    exact h2b.symm
  · intro sinq pi fl fr sample_rate channels cancelAt k bufs outs st' h
    exact runSession_balanced sinq pi fl fr sample_rate channels cancelAt
      bufs k ⟨0, 0⟩ outs st' rfl h

end BBG
